import Mathlib

/-!
Verification of the resumable bulk-collection / checkpoint workflow and the
statistical estimators of this repository.

The collectors poll a remote API; network responses are modelled as oracle
functions passed in as parameters (an identifier is mapped to `some` payload
on success and to `none` on any transport error, malformed response or
"not found", exactly as the code treats all three identically).  Wall-clock
timestamps (the `collected_at` field of each record) and logging calls are
omitted: no property below depends on them.  File writes are modelled as
values describing the name and content written.
-/

namespace SteamPlayerCountFast

/-- Record built by `SteamPlayerCountCollector.get_player_count`
(src/steam_player_count_fast.py, lines 166-170); the wall-clock
`collected_at` field is omitted. -/
structure Record where
  app_id : ℕ
  player_count : ℕ
  deriving DecidableEq

/-- State threaded through `collect_bulk` (src/steam_player_count_fast.py,
lines 185-274): the accumulated result list, the processed-ID set, the
mutable counters of `self.stats`, and the list of checkpoint writes performed
during this run.  Each checkpoint entry records the embedded progress
counter, the result list written to the checkpoint file, and the
processed-ID set written to the companion file. -/
structure CState where
  all_data : List Record
  processed_ids : Finset ℕ
  successful : ℕ
  failed : ℕ
  with_players : ℕ
  checkpoints : List (ℕ × List Record × Finset ℕ)
  deriving DecidableEq

/-- Model of `get_player_count` (lines 152-174): the oracle `api` returns the
current player count when the request succeeds with `result == 1`, and `none`
on any error, which the code turns into `None`. -/
def get_player_count (api : ℕ → Option ℕ) (app_id : ℕ) : Option Record :=
  (api app_id).map (fun c => { app_id := app_id, player_count := c })

/-- One iteration of the `for i, app_id in enumerate(app_ids, 1)` loop of
`collect_bulk` (lines 224-269).  An identifier already in the processed-ID
set is skipped entirely (`continue`, line 227), which also skips the
checkpoint write of that iteration.  Otherwise the record is fetched; on
success it is appended, the identifier marked processed and the counters
updated (lines 246-252); on failure the failure counter is incremented
(line 257).  When the 1-based index is a multiple of the checkpoint interval
the whole accumulator and the processed-ID set are written out
(lines 261-264). -/
def collectStep (api : ℕ → Option ℕ) (k : ℕ) (i app_id : ℕ) (s : CState) : CState :=
  if app_id ∈ s.processed_ids then s
  else
    let s1 :=
      match get_player_count api app_id with
      | some r =>
          { s with
            all_data := s.all_data ++ [r]
            processed_ids := insert app_id s.processed_ids
            successful := s.successful + 1
            with_players := if r.player_count > 0 then s.with_players + 1 else s.with_players }
      | none => { s with failed := s.failed + 1 }
    if i % k = 0 then
      { s1 with checkpoints := s1.checkpoints ++ [(i, s1.all_data, s1.processed_ids)] }
    else s1

/-- The strictly sequential accumulation loop of `collect_bulk`
(lines 224-269), with `i` the 1-based index of `enumerate`. -/
def collectLoop (api : ℕ → Option ℕ) (k : ℕ) : List ℕ → ℕ → CState → CState
  | [], _, s => s
  | a :: rest, i, s => collectLoop api k rest (i + 1) (collectStep api k i a s)

/-- The progress counters probed by the resume scan
`for i in range(len(app_ids), 0, -self.checkpoint_interval)` (line 193):
`n, n - k, n - 2k, ...` down to (but excluding) `0`. -/
def scanList (n k : ℕ) : List ℕ :=
  (List.range ((n + k - 1) / k)).map (fun j => n - j * k)

/-- First existing (readable) checkpoint file along the scan order
(lines 193-207): a file that is missing or fails to load counts as absent
and the scan continues. -/
def scanFind (fs : ℕ → Option (List Record)) : List ℕ → Option (ℕ × List Record)
  | [] => none
  | i :: rest =>
    match fs i with
    | some d => some (i, d)
    | none => scanFind fs rest

/-- The checkpoint selected by the resume scan of `collect_bulk`
(lines 190-207), given the on-disk contents `fs` (progress counter to file
content, `none` when the file is missing or unreadable). -/
def findCheckpoint (fs : ℕ → Option (List Record)) (n k : ℕ) : Option (ℕ × List Record) :=
  scanFind fs (scanList n k)

/-- The processed-ID set derived from restored checkpoint data:
`processed_ids = set of game app_id for game in all_data` (line 200). -/
def deriveProcessed (data : List Record) : Finset ℕ :=
  (data.map Record.app_id).toFinset

/-- Initial accumulator and processed-ID set under `resume=True`
(lines 185-210): the loaded checkpoint data with its derived ID set, or the
empty state when no checkpoint is found. -/
def resumeInit (fs : ℕ → Option (List Record)) (n k : ℕ) : List Record × Finset ℕ :=
  match findCheckpoint fs n k with
  | some (_, d) => (d, deriveProcessed d)
  | none => ([], ∅)

/-- State at the top of the main loop (lines 185-214): restored data,
derived processed-ID set, `stats['successful'] = len(all_data)` (line 213);
`failed` and `with_players` are `0` from the constructor (lines 47-54) and
no checkpoint has been written yet in this run. -/
def initState (data : List Record) (pids : Finset ℕ) : CState :=
  { all_data := data
    processed_ids := pids
    successful := data.length
    failed := 0
    with_players := 0
    checkpoints := [] }

/-- Model of `SteamPlayerCountCollector.collect_bulk` (lines 176-274):
optional resume from the latest found checkpoint, then the sequential
accumulation loop over all input identifiers starting at index 1. -/
def collect_bulk (api : ℕ → Option ℕ) (fs : ℕ → Option (List Record))
    (app_ids : List ℕ) (k : ℕ) (resume : Bool) : CState :=
  let p := if resume then resumeInit fs app_ids.length k else ([], ∅)
  collectLoop api k app_ids 1 (initState p.1 p.2)

/-- Sorting of `save_to_csv` / `save_to_excel`
(`df.sort_values('player_count', ascending=False)`, lines 325 and 340);
pandas does not fix the relative order of ties. -/
def sortByPlayersDesc (data : List Record) : List Record :=
  data.insertionSort (fun a b => b.player_count ≤ a.player_count)

/-- Model of `save_to_json` (lines 308-312): unconditionally writes the
given data (an empty list serialises to an empty JSON array). -/
def save_to_json (data : List Record) (filename : String) : Option (String × List Record) :=
  some (filename, data)

/-- Model of `save_to_csv` (lines 314-328): `if data:` guards the whole
body, so an empty list writes no file; otherwise the rows are written
sorted by player count descending. -/
def save_to_csv (data : List Record) (filename : String) : Option (String × List Record) :=
  if data = [] then none
  else some (filename, sortByPlayersDesc data)

/-- Model of `save_to_excel` (lines 330-343): same empty-list guard and
sorting as `save_to_csv`. -/
def save_to_excel (data : List Record) (filename : String) : Option (String × List Record) :=
  if data = [] then none
  else some (filename, sortByPlayersDesc data)

/-- The accumulator invariant claimed by the spec: the processed-ID set is
exactly the set of identifiers present in the accumulated collection, which
holds at most one record per identifier. -/
abbrev Inv (s : CState) : Prop :=
  s.processed_ids = deriveProcessed s.all_data ∧ (s.all_data.map Record.app_id).Nodup

/-- The same invariant for a written checkpoint: the processed-ID file
content is exactly the ID set of the checkpoint file content, which holds at
most one record per identifier. -/
abbrev CPInv (c : ℕ × List Record × Finset ℕ) : Prop :=
  c.2.2 = deriveProcessed c.2.1 ∧ (c.2.1.map Record.app_id).Nodup

/-- Pure description of the order in which the loop appends records: an
identifier already processed is skipped, a successful fetch appends one
record and marks the identifier processed, a failed fetch changes nothing. -/
def pureCollect (api : ℕ → Option ℕ) : List ℕ → Finset ℕ → List Record
  | [], _ => []
  | a :: rest, done =>
    if a ∈ done then pureCollect api rest done
    else
      match api a with
      | some c => { app_id := a, player_count := c } :: pureCollect api rest (insert a done)
      | none => pureCollect api rest done

/-- Pure description of the processed-ID set after visiting a list of
identifiers. -/
def doneAfter (api : ℕ → Option ℕ) : List ℕ → Finset ℕ → Finset ℕ
  | [], done => done
  | a :: rest, done =>
    if a ∈ done then doneAfter api rest done
    else
      match api a with
      | some _ => doneAfter api rest (insert a done)
      | none => doneAfter api rest done

end SteamPlayerCountFast

/-- State of the standard-library PRNG used by `random_sample_app_ids`
(src/steam_player_count_fast.py lines 131-150 and
src/steam_api_data_fixed.py lines 132-151): `seedFn` models `random.seed`
(it replaces the hidden global generator state by a state depending only on
the seed) and `sampleFn` models `random.sample` (a deterministic function of
the current generator state, the population and the sample size, returning
the sample and the advanced state). -/
structure PRNG (σ : Type) where
  seedFn : ℕ → σ
  sampleFn : σ → List ℕ → ℕ → List ℕ × σ

/-- Model of `random_sample_app_ids`: when a seed is given, the global
generator is reseeded first; then `random.sample` draws
`min(sample_size, len(all_app_ids))` identifiers (the method is identical in
both collector classes). -/
def random_sample_app_ids {σ : Type} (R : PRNG σ) (g : σ)
    (all_app_ids : List ℕ) (sample_size : ℕ) (seed : Option ℕ) : List ℕ × σ :=
  let g1 :=
    match seed with
    | some s => R.seedFn s
    | none => g
  R.sampleFn g1 all_app_ids (min sample_size all_app_ids.length)

namespace SteamApiDataFixed

/-- Fields of the store `appdetails` API response that
`SteamRandomCollector.get_game_details` reads
(src/steam_api_data_fixed.py, lines 191-245); `none` for the whole response
models a failed request, a malformed response or `success: false`. -/
structure AppDetailsResponse where
  gtype : String
  is_free : Bool
  categories : List String
  genres : List String
  price_final : Option ℕ
  metacritic : Option ℕ
  deriving DecidableEq

/-- Record built by `collect_single_game` (lines 247-281); `collected_at`
omitted as before, and the `stats` side updates (`with_players`,
`with_metacritic`) are not modelled since no claim mentions them. -/
structure GameRecord where
  app_id : ℕ
  gtype : String
  is_free : Bool
  categories : List String
  genres : List String
  price_jpy : Option ℚ
  metacritic_score : Option ℕ
  player_count : Option ℕ
  total_achievements : Option ℕ
  deriving DecidableEq

/-- Model of `get_game_details` (lines 191-245): on success it copies the
requested fields; `price_jpy` is `final / 100` when a price overview exists,
otherwise `0` for a free title and missing for the rest. -/
def get_game_details (details : ℕ → Option AppDetailsResponse) (app_id : ℕ) :
    Option GameRecord :=
  (details app_id).map fun d =>
    { app_id := app_id
      gtype := d.gtype
      is_free := d.is_free
      categories := d.categories
      genres := d.genres
      price_jpy :=
        match d.price_final with
        | some f => some ((f : ℚ) / 100)
        | none => if d.is_free then some 0 else none
      metacritic_score := d.metacritic
      player_count := none
      total_achievements := none }

/-- Model of `collect_single_game` (lines 247-281): fetch the details,
return `None` when they are missing or when the store type is not `'game'`
(the game-only filter, lines 253-258), then attach the player count and the
achievement count. -/
def collect_single_game (details : ℕ → Option AppDetailsResponse)
    (players achievements : ℕ → Option ℕ) (app_id : ℕ) : Option GameRecord :=
  match get_game_details details app_id with
  | none => none
  | some g =>
      if g.gtype ≠ "game" then none
      else some { g with player_count := players app_id
                         total_achievements := achievements app_id }

/-- Accumulated state of `SteamRandomCollector.collect_bulk`
(lines 283-337): result list, success/failure counters and checkpoint
writes of this run. -/
structure RState where
  all_data : List GameRecord
  successful : ℕ
  failed : ℕ
  checkpoints : List (ℕ × List GameRecord)
  deriving DecidableEq

/-- One iteration of the `collect_bulk` loop (lines 297-332): append on
success, count a failure otherwise, and checkpoint the whole accumulator
every `checkpoint_interval` items. -/
def collectStep (details : ℕ → Option AppDetailsResponse)
    (players achievements : ℕ → Option ℕ) (k i app_id : ℕ) (s : RState) : RState :=
  let s1 :=
    match collect_single_game details players achievements app_id with
    | some g => { s with all_data := s.all_data ++ [g], successful := s.successful + 1 }
    | none => { s with failed := s.failed + 1 }
  if i % k = 0 then { s1 with checkpoints := s1.checkpoints ++ [(i, s1.all_data)] }
  else s1

/-- The sequential loop of `collect_bulk`, 1-based as in `enumerate`. -/
def collectLoop (details : ℕ → Option AppDetailsResponse)
    (players achievements : ℕ → Option ℕ) (k : ℕ) :
    List ℕ → ℕ → RState → RState
  | [], _, s => s
  | a :: rest, i, s =>
      collectLoop details players achievements k rest (i + 1)
        (collectStep details players achievements k i a s)

/-- Model of `SteamRandomCollector.collect_bulk` (lines 283-337): no resume
machinery exists in this collector; counters start at the constructor
values. -/
def collect_bulk (details : ℕ → Option AppDetailsResponse)
    (players achievements : ℕ → Option ℕ) (app_ids : List ℕ) (k : ℕ) : RState :=
  collectLoop details players achievements k app_ids 1
    { all_data := [], successful := 0, failed := 0, checkpoints := [] }

/-- Row written by `save_to_csv` / `save_to_excel` (lines 370-436): the
list-valued fields are joined with a vertical bar before serialisation. -/
structure GameCsvRow where
  app_id : ℕ
  gtype : String
  is_free : Bool
  categories : String
  genres : String
  price_jpy : Option ℚ
  metacritic_score : Option ℕ
  player_count : Option ℕ
  total_achievements : Option ℕ
  deriving DecidableEq

/-- Conversion of one record for tabular output (lines 374-381). -/
def toCsvRow (g : GameRecord) : GameCsvRow :=
  { app_id := g.app_id
    gtype := g.gtype
    is_free := g.is_free
    categories := String.intercalate ("|") g.categories
    genres := String.intercalate ("|") g.genres
    price_jpy := g.price_jpy
    metacritic_score := g.metacritic_score
    player_count := g.player_count
    total_achievements := g.total_achievements }

/-- Model of `save_to_json` (lines 364-368): writes unconditionally. -/
def save_to_json (data : List GameRecord) (filename : String) :
    Option (String × List GameRecord) :=
  some (filename, data)

/-- Model of `save_to_csv` (lines 370-403): `if data:` guards the body, so
an empty list writes nothing. -/
def save_to_csv (data : List GameRecord) (filename : String) :
    Option (String × List GameCsvRow) :=
  if data = [] then none
  else some (filename, data.map toCsvRow)

/-- Model of `save_to_excel` (lines 405-436): same guard and conversion. -/
def save_to_excel (data : List GameRecord) (filename : String) :
    Option (String × List GameCsvRow) :=
  if data = [] then none
  else some (filename, data.map toCsvRow)

end SteamApiDataFixed

namespace SteamApiRevews

/-- Record built by `SteamDataCollector.collect_single_game`
(src/src/steam_api_revews.py, lines 165-196); `collected_at` omitted. -/
structure ReviewRecord where
  app_id : ℕ
  player_count : Option ℕ
  total_reviews : Option ℕ
  positive_reviews : Option ℕ
  negative_reviews : Option ℕ
  deriving DecidableEq

/-- The three counters returned by `get_review_count` (lines 118-143). -/
structure ReviewSummary where
  total_reviews : ℕ
  positive_reviews : ℕ
  negative_reviews : ℕ
  deriving DecidableEq

/-- Model of `is_game` (lines 145-163): queries the store details and checks
the reported type; any failure counts as not-a-game.  The oracle type is
shared with the other collector since both query the same endpoint. -/
def is_game (details : ℕ → Option SteamApiDataFixed.AppDetailsResponse) (app_id : ℕ) : Bool :=
  match details app_id with
  | some d => d.gtype == "game"
  | none => false

/-- Model of `collect_single_game` (lines 165-196): stop unless the store
type is `'game'`; otherwise assemble the record, with a missing review
response replaced by three missing counters. -/
def collect_single_game (details : ℕ → Option SteamApiDataFixed.AppDetailsResponse)
    (players : ℕ → Option ℕ) (reviews : ℕ → Option ReviewSummary) (app_id : ℕ) :
    Option ReviewRecord :=
  if ¬ is_game details app_id then none
  else
    some
      { app_id := app_id
        player_count := players app_id
        total_reviews := (reviews app_id).map ReviewSummary.total_reviews
        positive_reviews := (reviews app_id).map ReviewSummary.positive_reviews
        negative_reviews := (reviews app_id).map ReviewSummary.negative_reviews }

/-- The loop of `collect_bulk` (lines 198-226): result list with local
success and failure counters. -/
def collectLoop (details : ℕ → Option SteamApiDataFixed.AppDetailsResponse)
    (players : ℕ → Option ℕ) (reviews : ℕ → Option ReviewSummary) :
    List ℕ → List ReviewRecord × ℕ × ℕ → List ReviewRecord × ℕ × ℕ
  | [], acc => acc
  | a :: rest, acc =>
      match collect_single_game details players reviews a with
      | some g => collectLoop details players reviews rest (acc.1 ++ [g], acc.2.1 + 1, acc.2.2)
      | none => collectLoop details players reviews rest (acc.1, acc.2.1, acc.2.2 + 1)

/-- Model of `SteamDataCollector.collect_bulk` (lines 198-226). -/
def collect_bulk (details : ℕ → Option SteamApiDataFixed.AppDetailsResponse)
    (players : ℕ → Option ℕ) (reviews : ℕ → Option ReviewSummary)
    (app_ids : List ℕ) : List ReviewRecord × ℕ × ℕ :=
  collectLoop details players reviews app_ids ([], 0, 0)

end SteamApiRevews

namespace PowerLawStats

/-- Base-10 logarithm (`np.log10`), written through the natural logarithm. -/
noncomputable def log10 (x : ℝ) : ℝ := Real.log x / Real.log 10

/-- Ascending sort (`np.sort`); on real values the sorted sequence is unique,
so the choice of sorting algorithm is immaterial. -/
noncomputable def sortAsc (l : List ℝ) : List ℝ :=
  l.insertionSort (· ≤ ·)

/-- Descending sort (`np.sort(data)[::-1]`). -/
noncomputable def sortDesc (l : List ℝ) : List ℝ :=
  (sortAsc l).reverse

/-- Arithmetic mean of a sample. -/
noncomputable def mean (l : List ℝ) : ℝ := l.sum / l.length

/-- Sum of squared deviations from the mean.  `scipy.stats.linregress` works
with the averaged quantities; dividing numerator and denominator by the
common length leaves `slope` and `rValue` unchanged, so sums are used. -/
noncomputable def ssxx (xs : List ℝ) : ℝ :=
  (xs.map (fun a => (a - mean xs) ^ 2)).sum

/-- Sum of products of paired deviations from the means. -/
noncomputable def ssxy (xs ys : List ℝ) : ℝ :=
  ((xs.zip ys).map (fun p => (p.1 - mean xs) * (p.2 - mean ys))).sum

/-- The correlation coefficient `r` returned by `scipy.stats.linregress`
(its clamping of `r` into `[-1, 1]` only guards against floating-point
rounding and is the identity in exact arithmetic). -/
noncomputable def rValue (xs ys : List ℝ) : ℝ :=
  ssxy xs ys / Real.sqrt (ssxx xs * ssxx ys)

/-- The regression slope returned by `scipy.stats.linregress`. -/
noncomputable def slope (xs ys : List ℝ) : ℝ :=
  ssxy xs ys / ssxx xs

/-- Model of `calculate_power_law` (src/src/calc_power_law_simple.py, lines
11-36): filter the positive values, return the `(None, None, None)` sentinel
when nothing remains, otherwise sort descending, rank `1..n`, regress
`log10(value)` on `log10(rank)` and return the power-law exponent
`alpha = -slope`, the coefficient of determination `r^2` and the number of
positive values.  The same rank-size regression, with the same formulas, is
performed inline by `calculate_power_law_metrics`
(src/src/analyze_review_power_law.py, lines 44-60) and by
src/src/check_power_law.py, lines 47-59. -/
noncomputable def calculate_power_law (data : List ℝ) : Option (ℝ × ℝ × ℕ) :=
  let pos := data.filter (fun x => 0 < x)
  if pos.length = 0 then none
  else
    let sorted_data := sortDesc pos
    let ranks : List ℝ := (List.range sorted_data.length).map (fun i => (i : ℝ) + 1)
    let log_ranks := ranks.map log10
    let log_values := sorted_data.map log10
    some (-(slope log_ranks log_values), (rValue log_ranks log_values) ^ 2, pos.length)

/-- Model of the Gini coefficient computed by src/src/check_power_law.py,
lines 80-83, and `calculate_power_law_metrics`
(src/src/analyze_review_power_law.py, lines 62-65):
`(2 * sum(i * x_i)) / (n * sum(x)) - (n + 1) / n` over the ascending-sorted
sample with 1-based indices. -/
noncomputable def gini (values : List ℝ) : ℝ :=
  let sorted_values := sortAsc values
  let n : ℝ := sorted_values.length
  2 * (((List.range sorted_values.length).zip sorted_values).map
      (fun p => ((p.1 : ℝ) + 1) * p.2)).sum / (n * sorted_values.sum) - (n + 1) / n

end PowerLawStats

namespace SteamPlayerCountFast

theorem collectStep_skip {api : ℕ → Option ℕ} {k i a : ℕ} {s : CState}
    (h : a ∈ s.processed_ids) : collectStep api k i a s = s := by
  simp [collectStep, h]

theorem collectStep_fail {api : ℕ → Option ℕ} {k i a : ℕ} {s : CState}
    (hmem : a ∉ s.processed_ids) (hapi : api a = none) :
    collectStep api k i a s =
      (if i % k = 0 then
        { s with failed := s.failed + 1,
                 checkpoints := s.checkpoints ++ [(i, s.all_data, s.processed_ids)] }
       else { s with failed := s.failed + 1 }) := by
  simp [collectStep, get_player_count, hapi, hmem]

theorem collectStep_succ {api : ℕ → Option ℕ} {k i a c : ℕ} {s : CState}
    (hmem : a ∉ s.processed_ids) (hapi : api a = some c) :
    collectStep api k i a s =
      (let s1 : CState :=
        { s with
          all_data := s.all_data ++ [{ app_id := a, player_count := c }]
          processed_ids := insert a s.processed_ids
          successful := s.successful + 1
          with_players := if c > 0 then s.with_players + 1 else s.with_players }
       if i % k = 0 then
        { s1 with checkpoints := s1.checkpoints ++ [(i, s1.all_data, s1.processed_ids)] }
       else s1) := by
  simp [collectStep, get_player_count, hapi, hmem]

theorem derive_append {s : CState} {a c : ℕ} (h : Inv s) :
    insert a s.processed_ids =
      deriveProcessed (s.all_data ++ [{ app_id := a, player_count := c }]) := by
  rw [h.1]
  unfold deriveProcessed
  rw [List.map_append, List.toFinset_append, Finset.union_comm]
  simp only [List.map_cons, List.map_nil, List.toFinset_cons, List.toFinset_nil,
    insert_emptyc_eq]
  rw [← Finset.insert_eq]

theorem nodupAppendRecord {s : CState} {a c : ℕ} (h : Inv s) (hmem : a ∉ s.processed_ids) :
    ((s.all_data ++ [({ app_id := a, player_count := c } : Record)]).map Record.app_id).Nodup := by
  have hna : a ∉ s.all_data.map Record.app_id := by
    intro hx
    exact hmem (by rw [h.1]; exact List.mem_toFinset.mpr hx)
  rw [List.map_append]
  refine List.Nodup.append h.2 (by simp) ?_
  intro x hx1 hx2
  simp at hx2
  subst hx2
  exact hna hx1

theorem cp_extend {cps : List (ℕ × List Record × Finset ℕ)} {e : ℕ × List Record × Finset ℕ}
    (hcp : ∀ c ∈ cps, CPInv c) (he : CPInv e) : ∀ c ∈ cps ++ [e], CPInv c := by
  intro c hc
  rcases List.mem_append.mp hc with hold | hnew
  · exact hcp c hold
  · rcases List.mem_singleton.mp hnew with rfl
    exact he

theorem step_inv_cp {api : ℕ → Option ℕ} {k i a : ℕ} {s : CState}
    (h : Inv s) (hcp : ∀ c ∈ s.checkpoints, CPInv c) :
    Inv (collectStep api k i a s) ∧ ∀ c ∈ (collectStep api k i a s).checkpoints, CPInv c := by
  by_cases hmem : a ∈ s.processed_ids
  · rw [collectStep_skip hmem]; exact ⟨h, hcp⟩
  · cases hapi : api a with
    | none =>
        rw [collectStep_fail hmem hapi]
        split_ifs <;>
          first
            | exact ⟨⟨h.1, h.2⟩, cp_extend hcp ⟨h.1, h.2⟩⟩
            | exact ⟨h, hcp⟩
    | some c0 =>
        rw [collectStep_succ hmem hapi]
        have key := @derive_append s a c0 h
        have keyN := @nodupAppendRecord s a c0 h hmem
        dsimp only
        split_ifs <;>
          first
            | exact ⟨⟨key, keyN⟩, cp_extend hcp ⟨key, keyN⟩⟩
            | exact ⟨⟨key, keyN⟩, hcp⟩

theorem inv_collectLoop {api : ℕ → Option ℕ} {k : ℕ} :
    ∀ (l : List ℕ) (i : ℕ) (s : CState), Inv s → (∀ c ∈ s.checkpoints, CPInv c) →
      Inv (collectLoop api k l i s) ∧ ∀ c ∈ (collectLoop api k l i s).checkpoints, CPInv c := by
  intro l
  induction l with
  | nil => intro i s h hcp; exact ⟨h, hcp⟩
  | cons a rest ih =>
      intro i s h hcp
      exact ih (i + 1) (collectStep api k i a s) (step_inv_cp h hcp).1 (step_inv_cp h hcp).2

theorem collectStep_fail_fields {api : ℕ → Option ℕ} {k i a : ℕ} {s : CState}
    (hmem : a ∉ s.processed_ids) (hapi : api a = none) :
    (collectStep api k i a s).all_data = s.all_data ∧
    (collectStep api k i a s).processed_ids = s.processed_ids ∧
    (collectStep api k i a s).successful = s.successful := by
  rw [collectStep_fail hmem hapi]
  split_ifs <;> exact ⟨rfl, rfl, rfl⟩

theorem collectStep_succ_fields {api : ℕ → Option ℕ} {k i a c : ℕ} {s : CState}
    (hmem : a ∉ s.processed_ids) (hapi : api a = some c) :
    (collectStep api k i a s).all_data = s.all_data ++ [{ app_id := a, player_count := c }] ∧
    (collectStep api k i a s).processed_ids = insert a s.processed_ids ∧
    (collectStep api k i a s).successful = s.successful + 1 := by
  rw [collectStep_succ hmem hapi]
  dsimp only
  split_ifs <;> exact ⟨rfl, rfl, rfl⟩

theorem collectLoop_chars {api : ℕ → Option ℕ} {k : ℕ} :
    ∀ (l : List ℕ) (i : ℕ) (s : CState),
      (collectLoop api k l i s).all_data = s.all_data ++ pureCollect api l s.processed_ids ∧
      (collectLoop api k l i s).processed_ids = doneAfter api l s.processed_ids := by
  intro l
  induction l with
  | nil => intro i s; simp [collectLoop, pureCollect, doneAfter]
  | cons a rest ih =>
      intro i s
      show (collectLoop api k rest (i + 1) (collectStep api k i a s)).all_data = _ ∧
        (collectLoop api k rest (i + 1) (collectStep api k i a s)).processed_ids = _
      by_cases hmem : a ∈ s.processed_ids
      · rw [collectStep_skip hmem]
        rcases ih (i + 1) s with ⟨h1, h2⟩
        rw [h1, h2]
        simp [pureCollect, doneAfter, hmem]
      · cases hapi : api a with
        | none =>
            rcases @collectStep_fail_fields api k i a s hmem hapi with ⟨f1, f2, _⟩
            rcases ih (i + 1) (collectStep api k i a s) with ⟨h1, h2⟩
            rw [h1, h2, f1, f2]
            simp [pureCollect, doneAfter, hmem, hapi]
        | some c =>
            rcases @collectStep_succ_fields api k i a c s hmem hapi with ⟨f1, f2, _⟩
            rcases ih (i + 1) (collectStep api k i a s) with ⟨h1, h2⟩
            rw [h1, h2, f1, f2]
            simp [pureCollect, doneAfter, hmem, hapi]

theorem collectLoop_successful {api : ℕ → Option ℕ} {k : ℕ} :
    ∀ (l : List ℕ) (i : ℕ) (s : CState), s.successful = s.all_data.length →
      (collectLoop api k l i s).successful = (collectLoop api k l i s).all_data.length := by
  intro l
  induction l with
  | nil => intro i s h; exact h
  | cons a rest ih =>
      intro i s h
      show (collectLoop api k rest (i + 1) (collectStep api k i a s)).successful =
        (collectLoop api k rest (i + 1) (collectStep api k i a s)).all_data.length
      by_cases hmem : a ∈ s.processed_ids
      · rw [collectStep_skip hmem]; exact ih (i + 1) s h
      · cases hapi : api a with
        | none =>
            rcases @collectStep_fail_fields api k i a s hmem hapi with ⟨f1, _, f3⟩
            exact ih (i + 1) _ (by rw [f1, f3, h])
        | some c =>
            rcases @collectStep_succ_fields api k i a c s hmem hapi with ⟨f1, _, f3⟩
            exact ih (i + 1) _ (by rw [f1, f3, h]; simp)

theorem pureCollect_append {api : ℕ → Option ℕ} :
    ∀ (l1 l2 : List ℕ) (d : Finset ℕ),
      pureCollect api (l1 ++ l2) d =
        pureCollect api l1 d ++ pureCollect api l2 (doneAfter api l1 d) := by
  intro l1
  induction l1 with
  | nil => intro l2 d; simp [pureCollect, doneAfter]
  | cons a rest ih =>
      intro l2 d
      by_cases hmem : a ∈ d
      · simp [pureCollect, doneAfter, hmem, ih]
      · cases hapi : api a with
        | none => simp [pureCollect, doneAfter, hmem, hapi, ih]
        | some c => simp [pureCollect, doneAfter, hmem, hapi, ih]

theorem doneAfter_subset {api : ℕ → Option ℕ} :
    ∀ (l : List ℕ) (d : Finset ℕ), d ⊆ doneAfter api l d := by
  intro l
  induction l with
  | nil => intro d; simp [doneAfter]
  | cons a rest ih =>
      intro d
      by_cases hmem : a ∈ d
      · simpa [doneAfter, hmem] using ih d
      · cases hapi : api a with
        | none => simpa [doneAfter, hmem, hapi] using ih d
        | some c =>
            have h1 : d ⊆ insert a d := Finset.subset_insert a d
            have h2 := ih (insert a d)
            simpa [doneAfter, hmem, hapi] using h1.trans h2

theorem mem_doneAfter_of_success {api : ℕ → Option ℕ} :
    ∀ (l : List ℕ) (d : Finset ℕ) (a c : ℕ), a ∈ l → api a = some c →
      a ∈ doneAfter api l d := by
  intro l
  induction l with
  | nil => intro d a c h; simp at h
  | cons b rest ih =>
      intro d a c hmem hapi
      by_cases hbd : b ∈ d
      · rcases List.mem_cons.mp hmem with rfl | hrest
        · simpa [doneAfter, hbd] using doneAfter_subset rest d hbd
        · simpa [doneAfter, hbd] using ih d a c hrest hapi
      · cases hb : api b with
        | none =>
            rcases List.mem_cons.mp hmem with rfl | hrest
            · rw [hapi] at hb; cases hb
            · simpa [doneAfter, hbd, hb] using ih d a c hrest hapi
        | some c0 =>
            rcases List.mem_cons.mp hmem with rfl | hrest
            · have : a ∈ insert a d := Finset.mem_insert_self a d
              simpa [doneAfter, hbd, hb] using doneAfter_subset rest (insert a d) this
            · simpa [doneAfter, hbd, hb] using ih (insert b d) a c hrest hapi

theorem pureCollect_all_skipped {api : ℕ → Option ℕ} :
    ∀ (l : List ℕ) (d : Finset ℕ), (∀ a ∈ l, a ∉ d → api a = none) →
      pureCollect api l d = [] ∧ doneAfter api l d = d := by
  intro l
  induction l with
  | nil => intro d _; exact ⟨rfl, rfl⟩
  | cons a rest ih =>
      intro d h
      by_cases hmem : a ∈ d
      · have := ih d (fun b hb => h b (List.mem_cons_of_mem a hb))
        simp [pureCollect, doneAfter, hmem, this.1, this.2]
      · have hnone : api a = none := h a (List.mem_cons_self a rest) hmem
        have := ih d (fun b hb => h b (List.mem_cons_of_mem a hb))
        simp [pureCollect, doneAfter, hmem, hnone, this.1, this.2]

theorem doneAfter_eq_union {api : ℕ → Option ℕ} :
    ∀ (l : List ℕ) (d : Finset ℕ),
      doneAfter api l d = d ∪ deriveProcessed (pureCollect api l d) := by
  intro l
  induction l with
  | nil => intro d; simp [doneAfter, pureCollect, deriveProcessed]
  | cons a rest ih =>
      intro d
      by_cases hmem : a ∈ d
      · rw [show doneAfter api (a :: rest) d = doneAfter api rest d by simp [doneAfter, hmem],
          show pureCollect api (a :: rest) d = pureCollect api rest d by simp [pureCollect, hmem]]
        exact ih d
      · cases hapi : api a with
        | none =>
            rw [show doneAfter api (a :: rest) d = doneAfter api rest d by
                simp [doneAfter, hmem, hapi],
              show pureCollect api (a :: rest) d = pureCollect api rest d by
                simp [pureCollect, hmem, hapi]]
            exact ih d
        | some c =>
            rw [show doneAfter api (a :: rest) d = doneAfter api rest (insert a d) by
                simp [doneAfter, hmem, hapi],
              show pureCollect api (a :: rest) d =
                  { app_id := a, player_count := c } :: pureCollect api rest (insert a d) by
                simp [pureCollect, hmem, hapi]]
            rw [ih (insert a d)]
            unfold deriveProcessed
            ext x
            simp [or_assoc]

theorem scanFind_eq_none {fs : ℕ → Option (List Record)} :
    ∀ L : List ℕ, scanFind fs L = none ↔ ∀ j ∈ L, fs j = none := by
  intro L
  induction L with
  | nil => simp [scanFind]
  | cons i rest ih =>
      cases hi : fs i with
      | some d => simp [scanFind, hi]
      | none => simp [scanFind, hi, ih]

theorem scanFind_single {fs : ℕ → Option (List Record)} {m : ℕ} {d : List Record} :
    ∀ L : List ℕ, m ∈ L → (∀ j, j ≠ m → fs j = none) → fs m = some d →
      scanFind fs L = some (m, d) := by
  intro L
  induction L with
  | nil => intro h; simp at h
  | cons i rest ih =>
      intro hm hothers hfm
      by_cases him : i = m
      · subst him; simp [scanFind, hfm]
      · have : fs i = none := hothers i him
        rw [show scanFind fs (i :: rest) = scanFind fs rest by simp [scanFind, this]]
        have hmr : m ∈ rest := by
          rcases List.mem_cons.mp hm with rfl | hr
          · exact absurd rfl him
          · exact hr
        exact ih hmr hothers hfm

theorem scanFind_first {fs : ℕ → Option (List Record)} {i : ℕ} {d : List Record} :
    ∀ L : List ℕ, L.Pairwise (· > ·) → scanFind fs L = some (i, d) →
      i ∈ L ∧ fs i = some d ∧ ∀ j ∈ L, fs j ≠ none → j ≤ i := by
  intro L
  induction L with
  | nil => intro _ h; simp [scanFind] at h
  | cons b rest ih =>
      intro hp h
      cases hb : fs b with
      | some d0 =>
          rw [show scanFind fs (b :: rest) = some (b, d0) by simp [scanFind, hb]] at h
          simp only [Option.some.injEq, Prod.mk.injEq] at h
          obtain ⟨rfl, rfl⟩ := h
          refine ⟨List.mem_cons_self b rest, hb, ?_⟩
          intro j hj _
          rcases List.mem_cons.mp hj with rfl | hjr
          · exact le_refl j
          · exact le_of_lt (List.rel_of_pairwise_cons hp hjr)
      | none =>
          rw [show scanFind fs (b :: rest) = scanFind fs rest by simp [scanFind, hb]] at h
          rcases ih (List.Pairwise.of_cons hp) h with ⟨h1, h2, h3⟩
          refine ⟨List.mem_cons_of_mem b h1, h2, ?_⟩
          intro j hj hjne
          rcases List.mem_cons.mp hj with rfl | hjr
          · exact absurd hb hjne
          · exact h3 j hjr hjne

theorem scanList_sorted {n k : ℕ} (hk : 0 < k) : (scanList n k).Pairwise (· > ·) := by
  unfold scanList
  rw [List.pairwise_map]
  rw [List.pairwise_iff_get]
  intro a b hab
  simp only [List.get_eq_getElem, List.getElem_range]
  have hbm : (b : ℕ) < (n + k - 1) / k := by
    have := b.isLt
    simpa using this
  have hA : (a : ℕ) * k < (b : ℕ) * k :=
    Nat.mul_lt_mul_of_lt_of_le hab (le_refl k) hk
  have hB : (b : ℕ) * k + k ≤ ((n + k - 1) / k) * k := by
    have h1 : (b : ℕ) + 1 ≤ (n + k - 1) / k := Nat.succ_le_of_lt hbm
    calc (b : ℕ) * k + k = ((b : ℕ) + 1) * k := by ring
      _ ≤ ((n + k - 1) / k) * k := Nat.mul_le_mul_right k h1
  have hC : ((n + k - 1) / k) * k ≤ n + k - 1 := Nat.div_mul_le_self (n + k - 1) k
  have key : ∀ A B M : ℕ, A < B → B + k ≤ M → M ≤ n + k - 1 → n - B < n - A := by
    intro A B M h1 h2 h3
    omega
  exact key _ _ _ hA hB hC

theorem scanList_mem_iff {n k : ℕ} (hk : 0 < k) :
    ∀ j, j ∈ scanList n k ↔ 0 < j ∧ j ≤ n ∧ j % k = n % k := by
  intro j
  unfold scanList
  simp only [List.mem_map, List.mem_range]
  constructor
  · rintro ⟨t, ht, rfl⟩
    have hB : t * k + k ≤ ((n + k - 1) / k) * k := by
      have h1 : t + 1 ≤ (n + k - 1) / k := Nat.succ_le_of_lt ht
      calc t * k + k = (t + 1) * k := by ring
        _ ≤ ((n + k - 1) / k) * k := Nat.mul_le_mul_right k h1
    have hC : ((n + k - 1) / k) * k ≤ n + k - 1 := Nat.div_mul_le_self (n + k - 1) k
    have htn : t * k + 1 ≤ n := by omega
    refine ⟨by omega, by omega, ?_⟩
    have hn : n = (n - t * k) + t * k := by omega
    conv_rhs => rw [hn]
    rw [Nat.add_mul_mod_self_right]
  · rintro ⟨hj0, hjn, hjm⟩
    have hd : k ∣ n - j := by
      have hmod : j ≡ n [MOD k] := hjm
      exact (Nat.modEq_iff_dvd' hjn).mp hmod
    rcases hd with ⟨t, ht⟩
    refine ⟨t, ?_, ?_⟩
    · have htk : t * k + 1 ≤ n := by
        have : k * t ≤ n - j := le_of_eq ht.symm
        have h2 : k * t = t * k := Nat.mul_comm k t
        omega
      have : t + 1 ≤ (n + k - 1) / k := by
        rw [Nat.le_div_iff_mul_le hk]
        calc (t + 1) * k = t * k + k := by ring
          _ ≤ n + k - 1 := by omega
      omega
    · have h2 : k * t = t * k := Nat.mul_comm k t
      omega

end SteamPlayerCountFast

namespace SteamApiDataFixed

theorem collect_single_game_type {details : ℕ → Option AppDetailsResponse}
    {players achievements : ℕ → Option ℕ} {a : ℕ} {g : GameRecord}
    (h : collect_single_game details players achievements a = some g) :
    g.gtype = "game" ∧ g.app_id = a ∧ ∃ d, details a = some d ∧ d.gtype = "game" := by
  unfold collect_single_game get_game_details at h
  cases hd : details a with
  | none => rw [hd] at h; simp at h
  | some d =>
      rw [hd] at h
      simp only [Option.map_some'] at h
      by_cases ht : d.gtype = "game"
      · rw [if_neg (by simpa using ht)] at h
        simp only [Option.some.injEq] at h
        subst h
        exact ⟨ht, rfl, d, rfl, ht⟩
      · rw [if_pos (by simpa using ht)] at h
        cases h

theorem collectLoop_type {details : ℕ → Option AppDetailsResponse}
    {players achievements : ℕ → Option ℕ} {k : ℕ} :
    ∀ (l : List ℕ) (i : ℕ) (s : RState),
      (∀ r ∈ s.all_data, r.gtype = "game") →
      ∀ r ∈ (collectLoop details players achievements k l i s).all_data, r.gtype = "game" := by
  intro l
  induction l with
  | nil => intro i s h; exact h
  | cons a rest ih =>
      intro i s h
      refine ih (i + 1) _ ?_
      unfold collectStep
      cases hg : collect_single_game details players achievements a with
      | none =>
          split_ifs <;> intro r hr <;> exact h r hr
      | some g =>
          split_ifs <;> intro r hr <;>
            rcases List.mem_append.mp hr with hold | hnew
          · exact h r hold
          · rcases List.mem_singleton.mp hnew with rfl
            exact (collect_single_game_type hg).1
          · exact h r hold
          · rcases List.mem_singleton.mp hnew with rfl
            exact (collect_single_game_type hg).1

theorem collectLoop_counts {details : ℕ → Option AppDetailsResponse}
    {players achievements : ℕ → Option ℕ} {k : ℕ} :
    ∀ (l : List ℕ) (i : ℕ) (s : RState),
      (collectLoop details players achievements k l i s).successful +
        (collectLoop details players achievements k l i s).failed =
        s.successful + s.failed + l.length ∧
      (s.successful = s.all_data.length →
        (collectLoop details players achievements k l i s).successful =
          (collectLoop details players achievements k l i s).all_data.length) := by
  intro l
  induction l with
  | nil => intro i s; exact ⟨by simp [collectLoop], fun h => h⟩
  | cons a rest ih =>
      intro i s
      have step_fields :
          ((collectStep details players achievements k i a s).successful =
              s.successful + 1 ∧
            (collectStep details players achievements k i a s).failed = s.failed ∧
            (collectStep details players achievements k i a s).all_data.length =
              s.all_data.length + 1) ∨
          ((collectStep details players achievements k i a s).successful = s.successful ∧
            (collectStep details players achievements k i a s).failed = s.failed + 1 ∧
            (collectStep details players achievements k i a s).all_data.length =
              s.all_data.length) := by
        unfold collectStep
        cases collect_single_game details players achievements a with
        | some g => left; split_ifs <;> exact ⟨rfl, rfl, by simp⟩
        | none => right; split_ifs <;> exact ⟨rfl, rfl, rfl⟩
      rcases ih (i + 1) (collectStep details players achievements k i a s) with ⟨ih1, ih2⟩
      have hunf : collectLoop details players achievements k (a :: rest) i s =
          collectLoop details players achievements k rest (i + 1)
            (collectStep details players achievements k i a s) := rfl
      rw [hunf]
      rcases step_fields with ⟨e1, e2, e3⟩ | ⟨e1, e2, e3⟩ <;>
        refine ⟨by rw [ih1, e1, e2]; simp only [List.length_cons]; omega,
          fun h => ih2 (by rw [e1, e3, h])⟩

theorem collect_bulk_game_only {details : ℕ → Option AppDetailsResponse}
    {players achievements : ℕ → Option ℕ} {app_ids : List ℕ} {k : ℕ} :
    (∀ r ∈ (collect_bulk details players achievements app_ids k).all_data,
        r.gtype = "game") ∧
    (collect_bulk details players achievements app_ids k).successful =
      (collect_bulk details players achievements app_ids k).all_data.length ∧
    (collect_bulk details players achievements app_ids k).successful +
      (collect_bulk details players achievements app_ids k).failed = app_ids.length := by
  refine ⟨collectLoop_type app_ids 1 _ (by simp), ?_, ?_⟩
  · exact (collectLoop_counts app_ids 1 _).2 rfl
  · have := (@collectLoop_counts details players achievements k app_ids 1
      { all_data := [], successful := 0, failed := 0, checkpoints := [] }).1
    simpa using this

end SteamApiDataFixed

namespace SteamApiRevews

theorem collect_single_review_type {details : ℕ → Option SteamApiDataFixed.AppDetailsResponse}
    {players : ℕ → Option ℕ} {reviews : ℕ → Option ReviewSummary} {a : ℕ} {g : ReviewRecord}
    (h : collect_single_game details players reviews a = some g) :
    g.app_id = a ∧ ∃ d, details a = some d ∧ d.gtype = "game" := by
  unfold collect_single_game at h
  by_cases hg : is_game details a
  · rw [if_neg (by simpa using hg)] at h
    simp only [Option.some.injEq] at h
    subst h
    refine ⟨rfl, ?_⟩
    unfold is_game at hg
    cases hd : details a with
    | none => rw [hd] at hg; cases hg
    | some d =>
        rw [hd] at hg
        exact ⟨d, rfl, by simpa using hg⟩
  · rw [if_pos (by simpa using hg)] at h
    cases h

theorem collectLoop_game_only {details : ℕ → Option SteamApiDataFixed.AppDetailsResponse}
    {players : ℕ → Option ℕ} {reviews : ℕ → Option ReviewSummary} :
    ∀ (l : List ℕ) (acc : List ReviewRecord × ℕ × ℕ),
      (∀ r ∈ acc.1, ∃ d, details r.app_id = some d ∧ d.gtype = "game") →
      ∀ r ∈ (collectLoop details players reviews l acc).1,
        ∃ d, details r.app_id = some d ∧ d.gtype = "game" := by
  intro l
  induction l with
  | nil => intro acc h; exact h
  | cons a rest ih =>
      intro acc h
      show ∀ r ∈ (match collect_single_game details players reviews a with
        | some g => collectLoop details players reviews rest (acc.1 ++ [g], acc.2.1 + 1, acc.2.2)
        | none => collectLoop details players reviews rest (acc.1, acc.2.1, acc.2.2 + 1)).1, _
      cases hg : collect_single_game details players reviews a with
      | none => exact ih _ h
      | some g =>
          refine ih _ ?_
          intro r hr
          rcases List.mem_append.mp hr with hold | hnew
          · exact h r hold
          · rcases List.mem_singleton.mp hnew with rfl
            rcases collect_single_review_type hg with ⟨ha, d, hd, hdg⟩
            exact ⟨d, by rw [ha]; exact hd, hdg⟩

end SteamApiRevews

namespace PowerLawStats

theorem filter_geo_eval :
    ([1000, 500, 250, 125] : List ℝ).filter (fun x => 0 < x) = [1000, 500, 250, 125] := by
  simp [List.filter]

theorem sortDesc_geo_eval : sortDesc [1000, 500, 250, 125] = [1000, 500, 250, 125] := by
  simp [sortDesc, sortAsc, List.insertionSort, List.orderedInsert]
  norm_num

theorem cpl_geo_eval : calculate_power_law [1000, 500, 250, 125] =
    some (-(slope ([1, 2, 3, 4].map log10) ([1000, 500, 250, 125].map log10)),
      (rValue ([1, 2, 3, 4].map log10) ([1000, 500, 250, 125].map log10)) ^ 2, 4) := by
  rw [calculate_power_law]
  simp only [filter_geo_eval]
  rw [if_neg (by norm_num)]
  rw [sortDesc_geo_eval]
  norm_num [List.range_succ]

theorem log10_one : log10 1 = 0 := by simp [log10]

theorem log10_1000 : log10 1000 = 3 := by
  rw [log10, show (1000 : ℝ) = 10 ^ (3 : ℕ) by norm_num, Real.log_pow]
  have := Real.log_pos (show (1 : ℝ) < 10 by norm_num)
  field_simp

theorem log10_4 : log10 4 = 2 * log10 2 := by
  rw [log10, log10, show (4 : ℝ) = 2 ^ (2 : ℕ) by norm_num, Real.log_pow]
  push_cast
  ring

theorem log10_500 : log10 500 = 3 - log10 2 := by
  rw [log10, show (500 : ℝ) = 1000 / 2 by norm_num,
    Real.log_div (by norm_num) (by norm_num),
    show (1000 : ℝ) = 10 ^ (3 : ℕ) by norm_num, Real.log_pow]
  rw [log10]
  have := Real.log_pos (show (1 : ℝ) < 10 by norm_num)
  field_simp

theorem log10_250 : log10 250 = 3 - 2 * log10 2 := by
  rw [log10, show (250 : ℝ) = 1000 / 4 by norm_num,
    Real.log_div (by norm_num) (by norm_num),
    show (1000 : ℝ) = 10 ^ (3 : ℕ) by norm_num,
    show (4 : ℝ) = 2 ^ (2 : ℕ) by norm_num, Real.log_pow, Real.log_pow]
  rw [log10]
  have := Real.log_pos (show (1 : ℝ) < 10 by norm_num)
  field_simp

theorem log10_125 : log10 125 = 3 - 3 * log10 2 := by
  rw [log10, show (125 : ℝ) = 1000 / 8 by norm_num,
    Real.log_div (by norm_num) (by norm_num),
    show (1000 : ℝ) = 10 ^ (3 : ℕ) by norm_num,
    show (8 : ℝ) = 2 ^ (3 : ℕ) by norm_num, Real.log_pow, Real.log_pow]
  rw [log10]
  have := Real.log_pos (show (1 : ℝ) < 10 by norm_num)
  field_simp

theorem rsq_lt_one {xs ys : List ℝ} (hP : 0 < ssxx xs * ssxx ys)
    (hlt : (ssxy xs ys) ^ 2 < ssxx xs * ssxx ys) : (rValue xs ys) ^ 2 < 1 := by
  rw [rValue, div_pow, Real.sq_sqrt hP.le]
  exact (div_lt_one hP).mpr hlt

theorem log_ranks_geo_eval :
    ([1, 2, 3, 4] : List ℝ).map log10 = [0, log10 2, log10 3, 2 * log10 2] := by
  simp [log10_one, log10_4]

theorem log_values_geo_eval : ([1000, 500, 250, 125] : List ℝ).map log10 =
    [3, 3 - log10 2, 3 - 2 * log10 2, 3 - 3 * log10 2] := by
  simp [log10_1000, log10_500, log10_250, log10_125]

theorem ssxx_ranks_pos (a b : ℝ) (ha : 0 < a) :
    0 < ssxx [0, a, b, 2 * a] := by
  simp only [ssxx, mean, List.map, List.sum_cons, List.sum_nil, List.length_cons,
    List.length_nil]
  push_cast
  ring_nf
  nlinarith [sq_nonneg (3 * a - b), mul_pos ha ha, sq_nonneg b]

theorem ssxx_values_pos (a : ℝ) (ha : 0 < a) :
    0 < ssxx [3, 3 - a, 3 - 2 * a, 3 - 3 * a] := by
  simp only [ssxx, mean, List.map, List.sum_cons, List.sum_nil, List.length_cons,
    List.length_nil]
  push_cast
  ring_nf
  nlinarith [mul_pos ha ha]

theorem geo_cauchy_strict (a b : ℝ) (ha : 0 < a) (hb : 0 < b) :
    (ssxy [0, a, b, 2 * a] [3, 3 - a, 3 - 2 * a, 3 - 3 * a]) ^ 2 <
      ssxx [0, a, b, 2 * a] * ssxx [3, 3 - a, 3 - 2 * a, 3 - 3 * a] := by
  simp only [ssxx, ssxy, mean, List.zip, List.zipWith, List.map, List.sum_cons,
    List.sum_nil, List.length_cons, List.length_nil]
  push_cast
  ring_nf
  nlinarith [sq_nonneg (a * (3 * a - 2 * b)), mul_pos (mul_pos ha hb) (mul_pos ha hb),
    sq_nonneg (a * b), sq_nonneg (3 * a - 2 * b)]

theorem geo_rsq_lt_one : ∃ p : ℝ × ℝ × ℕ,
    calculate_power_law [1000, 500, 250, 125] = some p ∧ p.2.1 < 1 := by
  have ha : 0 < log10 2 := div_pos (Real.log_pos (by norm_num)) (Real.log_pos (by norm_num))
  have hb : 0 < log10 3 := div_pos (Real.log_pos (by norm_num)) (Real.log_pos (by norm_num))
  refine ⟨_, cpl_geo_eval, ?_⟩
  show (rValue (([1, 2, 3, 4] : List ℝ).map log10)
      (([1000, 500, 250, 125] : List ℝ).map log10)) ^ 2 < 1
  rw [log_ranks_geo_eval, log_values_geo_eval]
  exact rsq_lt_one (mul_pos (ssxx_ranks_pos _ _ ha) (ssxx_values_pos _ ha))
    (geo_cauchy_strict _ _ ha hb)

theorem sortAsc_gini1 : sortAsc [100, 10, 1] = [1, 10, 100] := by
  simp [sortAsc, List.insertionSort, List.orderedInsert]
  norm_num

theorem sortAsc_gini2 : sortAsc [5, 5, 5, 5] = [5, 5, 5, 5] := by
  simp [sortAsc, List.insertionSort, List.orderedInsert]

end PowerLawStats


open SteamPlayerCountFast in
/-- C1: in `SteamPlayerCountCollector.collect_bulk`, for every input list of
distinct identifiers, at every point of the accumulation loop — in
particular at every checkpoint write — the processed-ID set equals exactly
the set of `app_id` values of the records in the accumulated result list,
and that list contains at most one record per identifier.  The first
conjunct states the invariant for the loop started anywhere (so it holds at
every intermediate point and for every checkpoint written along the way);
the second instantiates it for a full fresh run of `collect_bulk`. -/
theorem C1_accumulator_invariant :
    (∀ (api : ℕ → Option ℕ) (k : ℕ) (l : List ℕ) (i : ℕ) (s : CState),
      l.Nodup → Inv s → (∀ c ∈ s.checkpoints, CPInv c) →
      Inv (collectLoop api k l i s) ∧
        ∀ c ∈ (collectLoop api k l i s).checkpoints, CPInv c) ∧
    (∀ (api : ℕ → Option ℕ) (fs : ℕ → Option (List Record)) (app_ids : List ℕ) (k : ℕ),
      app_ids.Nodup →
      Inv (collect_bulk api fs app_ids k false) ∧
        ∀ c ∈ (collect_bulk api fs app_ids k false).checkpoints, CPInv c) := by
  constructor
  · intro api k l i s _ h hcp
    exact inv_collectLoop l i s h hcp
  · intro api fs app_ids k _
    exact inv_collectLoop app_ids 1 (initState [] ∅)
      (by constructor <;> simp [initState, deriveProcessed]) (by simp [initState])

open SteamPlayerCountFast in
/-- C1 witness: a concrete two-identifier run, one succeeding and one
failing, with checkpoint interval 2. -/
theorem C1_accumulator_invariant_witness :
    Inv (collect_bulk (fun a => if a = 1 then some 5 else none) (fun _ => none) [1, 2] 2 false) ∧
      ∀ c ∈ (collect_bulk (fun a => if a = 1 then some 5 else none)
          (fun _ => none) [1, 2] 2 false).checkpoints, CPInv c :=
  C1_accumulator_invariant.2 (fun a => if a = 1 then some 5 else none)
    (fun _ => none) [1, 2] 2 (by decide)

/-- C6: `random_sample_app_ids` is deterministic in the seed: with a seed
supplied, the returned subset does not depend on the hidden incoming
generator state — so two calls with the same seed and the same universe (in
particular two consecutive calls, the second starting from whatever state
the first left behind) return the same identifiers, for every target
count. -/
theorem C6_sampler_deterministic :
    ∀ (σ : Type) (R : PRNG σ) (g g' : σ) (U : List ℕ) (size s : ℕ),
      (random_sample_app_ids R g U size (some s)).1 =
        (random_sample_app_ids R g' U size (some s)).1 ∧
      (random_sample_app_ids R
          (random_sample_app_ids R g U size (some s)).2 U size (some s)).1 =
        (random_sample_app_ids R g U size (some s)).1 :=
  fun _ _ _ _ _ _ _ => ⟨rfl, rfl⟩

open PowerLawStats in
/-- C7: for every input list that contains no positive value (in particular
the empty list), `calculate_power_law` returns the `none` sentinel
(modelling `(None, None, None)`) instead of reaching the logarithm of a
non-positive number. -/
theorem C7_nonpositive_sentinel :
    ∀ data : List ℝ, (∀ x ∈ data, x ≤ 0) → calculate_power_law data = none := by
  intro data h
  have hfil : data.filter (fun x => 0 < x) = [] := by
    rw [List.filter_eq_nil_iff]
    intro a ha
    simpa using not_lt.mpr (h a ha)
  simp [calculate_power_law, hfil]

open PowerLawStats in
/-- C7 witness: the empty list. -/
theorem C7_nonpositive_sentinel_witness : calculate_power_law [] = none :=
  C7_nonpositive_sentinel [] (by simp)

open PowerLawStats in
/-- C5: the Gini coefficient
`(2 * sum(i * x_i)) / (n * sum(x)) - (n + 1) / n` over the ascending-sorted
sample lies in `[0, 1)` for the input `[100, 10, 1]` and equals exactly `0`
for the uniform input `[5, 5, 5, 5]`. -/
theorem C5_gini_bounds :
    0 ≤ gini [100, 10, 1] ∧ gini [100, 10, 1] < 1 ∧ gini [5, 5, 5, 5] = 0 := by
  have h1 : gini [100, 10, 1] = 642 / 333 - 4 / 3 := by
    rw [gini, sortAsc_gini1]
    norm_num [List.range_succ]
  have h2 : gini [5, 5, 5, 5] = 0 := by
    rw [gini, sortAsc_gini2]
    norm_num [List.range_succ]
  exact ⟨by rw [h1]; norm_num, by rw [h1]; norm_num, h2⟩

open SteamPlayerCountFast in
/-- C9: throughout `SteamPlayerCountCollector.collect_bulk` the counter
`stats['successful']` equals the length of the accumulated result list: it
starts at the length of the restored checkpoint data, is incremented exactly
when a record is appended (so the equality is preserved at every step of the
loop, first two conjuncts), and therefore the list returned by
`collect_bulk` always has length equal to the final successful counter
(third conjunct). -/
theorem C9_successful_tracks_length :
    (∀ (data : List Record) (pids : Finset ℕ), (initState data pids).successful = data.length) ∧
    (∀ (api : ℕ → Option ℕ) (k : ℕ) (l : List ℕ) (i : ℕ) (s : CState),
      s.successful = s.all_data.length →
      (collectLoop api k l i s).successful = (collectLoop api k l i s).all_data.length) ∧
    (∀ (api : ℕ → Option ℕ) (fs : ℕ → Option (List Record)) (app_ids : List ℕ)
        (k : ℕ) (r : Bool),
      (collect_bulk api fs app_ids k r).successful =
        (collect_bulk api fs app_ids k r).all_data.length) := by
  refine ⟨fun _ _ => rfl, fun api k l i s h => collectLoop_successful l i s h, ?_⟩
  intro api fs app_ids k r
  exact collectLoop_successful app_ids 1 _ rfl

open SteamPlayerCountFast in
/-- C9 witness: a concrete three-identifier run with one success. -/
theorem C9_successful_tracks_length_witness :
    (collectLoop (fun a => if a = 1 then some 5 else none) 2 [1, 2, 3] 1
        (initState [] ∅)).successful =
      (collectLoop (fun a => if a = 1 then some 5 else none) 2 [1, 2, 3] 1
        (initState [] ∅)).all_data.length :=
  C9_successful_tracks_length.2.1 (fun a => if a = 1 then some 5 else none)
    2 [1, 2, 3] 1 (initState [] ∅) (by decide)

open PowerLawStats in
/-- C4 counterexample: for the input sample `[1000, 500, 250, 125]` the
rank-size procedure does not produce R² = 1.0.  The sample is geometric —
log-linear in the rank index — while an exact power law would require
`log10(value)` to be an affine function of `log10(rank)`; its R² is about
0.96. -/
theorem C4_counterexample :
    (calculate_power_law [1000, 500, 250, 125]).map (fun t => t.2.1) ≠ some 1 := by
  rcases geo_rsq_lt_one with ⟨p, hp, hlt⟩
  rw [hp]
  intro h
  simp only [Option.map_some', Option.some.injEq] at h
  exact absurd h (ne_of_lt hlt)

open PowerLawStats in
/-- C4 amended: for the input sample `[1000, 500, 250, 125]`, the rank-size
procedure (sort descending, rank `1..n`, regress `log10(value)` on
`log10(rank)`) succeeds and produces a coefficient of determination R²
strictly less than 1. -/
theorem C4_geometric_not_exact_power_law :
    ∃ p : ℝ × ℝ × ℕ, calculate_power_law [1000, 500, 250, 125] = some p ∧ p.2.1 < 1 :=
  geo_rsq_lt_one

/-- C10: called with an empty data list, `save_to_csv` and `save_to_excel`
(of both collector classes) return without writing any file, whereas
`save_to_json` writes a file containing an empty JSON array; for non-empty
data all three write a file. -/
theorem C10_empty_save_behaviour :
    (∀ f : String,
      SteamPlayerCountFast.save_to_json [] f = some (f, []) ∧
      SteamPlayerCountFast.save_to_csv [] f = none ∧
      SteamPlayerCountFast.save_to_excel [] f = none ∧
      SteamApiDataFixed.save_to_json [] f = some (f, []) ∧
      SteamApiDataFixed.save_to_csv [] f = none ∧
      SteamApiDataFixed.save_to_excel [] f = none) ∧
    (∀ (d : List SteamPlayerCountFast.Record) (f : String), d ≠ [] →
      (SteamPlayerCountFast.save_to_json d f).isSome ∧
      (SteamPlayerCountFast.save_to_csv d f).isSome ∧
      (SteamPlayerCountFast.save_to_excel d f).isSome) ∧
    (∀ (d : List SteamApiDataFixed.GameRecord) (f : String), d ≠ [] →
      (SteamApiDataFixed.save_to_json d f).isSome ∧
      (SteamApiDataFixed.save_to_csv d f).isSome ∧
      (SteamApiDataFixed.save_to_excel d f).isSome) := by
  refine ⟨fun f => ⟨rfl, rfl, rfl, rfl, rfl, rfl⟩, ?_, ?_⟩
  · intro d f hd
    rw [SteamPlayerCountFast.save_to_csv, SteamPlayerCountFast.save_to_excel, if_neg hd]
    exact ⟨rfl, rfl, rfl⟩
  · intro d f hd
    rw [SteamApiDataFixed.save_to_csv, SteamApiDataFixed.save_to_excel, if_neg hd]
    exact ⟨rfl, rfl, rfl⟩

/-- C10 witness: a concrete one-record list is written by all three
serialisers. -/
theorem C10_empty_save_behaviour_witness :
    (SteamPlayerCountFast.save_to_json [{ app_id := 1, player_count := 5 }] ("out")).isSome ∧
    (SteamPlayerCountFast.save_to_csv [{ app_id := 1, player_count := 5 }] ("out")).isSome ∧
    (SteamPlayerCountFast.save_to_excel [{ app_id := 1, player_count := 5 }] ("out")).isSome :=
  C10_empty_save_behaviour.2.1 [{ app_id := 1, player_count := 5 }] ("out") (by simp)

/-- C8: every record in the list returned by the metadata collectors'
`collect_bulk` has store type `'game'`: an identifier whose details request
fails, returns no data, or reports any other type contributes no record and
is counted as failed (for `SteamRandomCollector` the success and failure
counters partition the input and the successes are exactly the accumulated
records); for `SteamDataCollector` every accumulated record's identifier is
reported by the details endpoint with type `'game'`. -/
theorem C8_game_only_filter :
    ∀ (details : ℕ → Option SteamApiDataFixed.AppDetailsResponse)
      (players achievements : ℕ → Option ℕ)
      (reviews : ℕ → Option SteamApiRevews.ReviewSummary)
      (app_ids : List ℕ) (k : ℕ),
      (∀ r ∈ (SteamApiDataFixed.collect_bulk details players achievements app_ids k).all_data,
          r.gtype = "game") ∧
      (SteamApiDataFixed.collect_bulk details players achievements app_ids k).successful +
          (SteamApiDataFixed.collect_bulk details players achievements app_ids k).failed =
        app_ids.length ∧
      (SteamApiDataFixed.collect_bulk details players achievements app_ids k).successful =
        (SteamApiDataFixed.collect_bulk details players achievements app_ids k).all_data.length ∧
      ∀ r ∈ (SteamApiRevews.collect_bulk details players reviews app_ids).1,
        ∃ d, details r.app_id = some d ∧ d.gtype = "game" := by
  intro details players achievements reviews app_ids k
  rcases @SteamApiDataFixed.collect_bulk_game_only details players achievements app_ids k
    with ⟨hg, hlen, hsum⟩
  exact ⟨hg, hsum, hlen, SteamApiRevews.collectLoop_game_only app_ids ([], 0, 0) (by simp)⟩

/-- C8 witness: one identifier whose details report type `'game'` produces a
record typed `'game'`. -/
theorem C8_game_only_filter_witness :
    ({ app_id := 7, gtype := "game", is_free := true, categories := [], genres := [],
        price_jpy := some 0, metacritic_score := none, player_count := none,
        total_achievements := none } : SteamApiDataFixed.GameRecord).gtype = "game" :=
  (C8_game_only_filter
      (fun a => if a = 7 then
        some { gtype := "game", is_free := true, categories := [], genres := [],
               price_final := none, metacritic := none }
      else none)
      (fun _ => none) (fun _ => none) (fun _ => none) [7] 3).1
    _ (by decide)

open SteamPlayerCountFast in
/-- C3 counterexample: with checkpoint interval 2 and input length 3, a
checkpoint file exists on disk at progress counter 2 — a multiple of the
interval not exceeding the input length — yet the resume scan probes only
counters 3 and 1 (`range(3, 0, -2)`), finds nothing, and `collect_bulk`
with `resume=true` starts from the empty state instead of loading it. -/
theorem C3_counterexample :
    (fun j => if j = 2 then some [({ app_id := 1, player_count := 5 } : Record)] else none) 2 =
        some [{ app_id := 1, player_count := 5 }] ∧
      2 ≤ 3 ∧ 2 % 2 = 0 ∧
      scanList 3 2 = [3, 1] ∧
      resumeInit (fun j => if j = 2 then some [{ app_id := 1, player_count := 5 }] else none)
          3 2 = ([], ∅) ∧
      (collect_bulk (fun _ => none)
          (fun j => if j = 2 then some [{ app_id := 1, player_count := 5 }] else none)
          [1, 2, 3] 2 true).all_data = [] := by
  refine ⟨rfl, by norm_num, by norm_num, by decide, by decide, by decide⟩

open SteamPlayerCountFast in
/-- C3 amended: with `resume=true` and `0 < checkpoint_interval = k`,
`collect_bulk` scans exactly the progress counters `j` with
`0 < j ≤ n` and `j ≡ n (mod k)` (that is `n, n-k, n-2k, ...`, `n` the input
length) — these coincide with the positive multiples of `k` up to `n`
exactly when `k` divides `n`, while checkpoints are written at multiples of
`k`.  It loads the scanned checkpoint with the highest counter that exists
and is readable, derives the processed-ID set from the loaded records, and
starts from empty state exactly when no scanned file exists. -/
theorem C3_resume_scan :
    ∀ (fs : ℕ → Option (List Record)) (n k : ℕ), 0 < k →
      (∀ j, j ∈ scanList n k ↔ 0 < j ∧ j ≤ n ∧ j % k = n % k) ∧
      (∀ i d, findCheckpoint fs n k = some (i, d) →
        i ∈ scanList n k ∧ fs i = some d ∧
          (∀ j ∈ scanList n k, fs j ≠ none → j ≤ i) ∧
          resumeInit fs n k = (d, deriveProcessed d)) ∧
      (findCheckpoint fs n k = none →
        (∀ j ∈ scanList n k, fs j = none) ∧ resumeInit fs n k = ([], ∅)) := by
  intro fs n k hk
  refine ⟨scanList_mem_iff hk, ?_, ?_⟩
  · intro i d hfind
    rcases scanFind_first (scanList n k) (scanList_sorted hk) hfind with ⟨h1, h2, h3⟩
    exact ⟨h1, h2, h3, by simp [resumeInit, hfind]⟩
  · intro hnone
    exact ⟨(scanFind_eq_none (scanList n k)).mp hnone, by simp [resumeInit, hnone]⟩

open SteamPlayerCountFast in
/-- C3 witness: concrete instance of the scan-grid characterisation for
input length 4 and interval 2. -/
theorem C3_resume_scan_witness :
    2 ∈ scanList 4 2 ↔ 0 < 2 ∧ 2 ≤ 4 ∧ 2 % 2 = 4 % 2 :=
  (C3_resume_scan (fun _ => none) 4 2 (by norm_num)).1 2

open SteamPlayerCountFast in
/-- C2: for every list of distinct identifiers and a fixed per-identifier
fetch function (idempotence: the same identifier always yields the same
record or the same absence), running `collect_bulk` with `resume=true` from
an on-disk checkpoint holding the results of a prefix of the job and
completing the remaining identifiers yields a final accumulator equal, as a
set of identifier-to-record pairs, to running the whole job uncheckpointed
(`resume=false`). -/
theorem C2_resume_refinement :
    ∀ (api : ℕ → Option ℕ) (fs : ℕ → Option (List Record)) (app_ids : List ℕ) (m k : ℕ),
      0 < k → app_ids.Nodup →
      m ∈ scanList app_ids.length k →
      (∀ j, j ≠ m → fs j = none) →
      fs m = some ((collectLoop api k (app_ids.take m) 1 (initState [] ∅)).all_data) →
      ((collect_bulk api fs app_ids k true).all_data.map (fun r => (r.app_id, r))).toFinset =
        ((collect_bulk api fs app_ids k false).all_data.map (fun r => (r.app_id, r))).toFinset := by
  intro api fs app_ids m k hk hnd hm hothers hfm
  have hpre : (collectLoop api k (app_ids.take m) 1 (initState [] ∅)).all_data =
      pureCollect api (app_ids.take m) ∅ := by
    have h := (@collectLoop_chars api k (app_ids.take m) 1 (initState [] ∅)).1
    simpa [initState] using h
  set data0 := pureCollect api (app_ids.take m) ∅ with hdata0
  have hfind : findCheckpoint fs app_ids.length k = some (m, data0) :=
    scanFind_single (scanList app_ids.length k) hm hothers (by rw [hfm, hpre])
  have hresume : resumeInit fs app_ids.length k = (data0, deriveProcessed data0) := by
    simp [resumeInit, hfind]
  have hT : (collect_bulk api fs app_ids k true).all_data =
      data0 ++ pureCollect api app_ids (deriveProcessed data0) := by
    have hdef : collect_bulk api fs app_ids k true =
        collectLoop api k app_ids 1
          (initState (resumeInit fs app_ids.length k).1
            (resumeInit fs app_ids.length k).2) := rfl
    rw [hdef, hresume]
    have h := (@collectLoop_chars api k app_ids 1
      (initState data0 (deriveProcessed data0))).1
    simpa [initState] using h
  have hF : (collect_bulk api fs app_ids k false).all_data = pureCollect api app_ids ∅ := by
    have h := (@collectLoop_chars api k app_ids 1 (initState [] ∅)).1
    simpa [initState] using h
  have hsplit : app_ids = app_ids.take m ++ app_ids.drop m :=
    (List.take_append_drop m app_ids).symm
  have hdone : doneAfter api (app_ids.take m) ∅ = deriveProcessed data0 := by
    rw [doneAfter_eq_union (app_ids.take m) ∅, ← hdata0]
    exact Finset.empty_union _
  have hskip : ∀ a ∈ app_ids.take m, a ∉ deriveProcessed data0 → api a = none := by
    intro a ha hnotin
    cases hapi : api a with
    | none => rfl
    | some c =>
        exfalso
        apply hnotin
        rw [← hdone]
        exact mem_doneAfter_of_success (app_ids.take m) ∅ a c ha hapi
  rcases pureCollect_all_skipped (app_ids.take m) (deriveProcessed data0) hskip with ⟨hn1, hn2⟩
  have hTT : data0 ++ pureCollect api app_ids (deriveProcessed data0) =
      data0 ++ pureCollect api (app_ids.drop m) (deriveProcessed data0) := by
    conv_lhs => rw [hsplit]
    rw [pureCollect_append (app_ids.take m) (app_ids.drop m) (deriveProcessed data0), hn1, hn2]
    simp
  have hFF : pureCollect api app_ids ∅ =
      data0 ++ pureCollect api (app_ids.drop m) (deriveProcessed data0) := by
    conv_lhs => rw [hsplit]
    rw [pureCollect_append (app_ids.take m) (app_ids.drop m) ∅, hdone, ← hdata0]
  rw [hT, hF, hTT, hFF]

open SteamPlayerCountFast in
/-- C2 witness: interval 2, four identifiers of which the odd ones succeed,
resuming from the checkpoint written after the first two. -/
theorem C2_resume_refinement_witness :
    ((collect_bulk (fun a => if a % 2 = 1 then some a else none)
        (fun j => if j = 2 then
            some ((collectLoop (fun a => if a % 2 = 1 then some a else none) 2
              ([1, 2, 3, 4].take 2) 1 (initState [] ∅)).all_data)
          else none)
        [1, 2, 3, 4] 2 true).all_data.map (fun r => (r.app_id, r))).toFinset =
      ((collect_bulk (fun a => if a % 2 = 1 then some a else none)
        (fun j => if j = 2 then
            some ((collectLoop (fun a => if a % 2 = 1 then some a else none) 2
              ([1, 2, 3, 4].take 2) 1 (initState [] ∅)).all_data)
          else none)
        [1, 2, 3, 4] 2 false).all_data.map (fun r => (r.app_id, r))).toFinset :=
  C2_resume_refinement (fun a => if a % 2 = 1 then some a else none)
    (fun j => if j = 2 then
        some ((collectLoop (fun a => if a % 2 = 1 then some a else none) 2
          ([1, 2, 3, 4].take 2) 1 (initState [] ∅)).all_data)
      else none)
    [1, 2, 3, 4] 2 2 (by norm_num) (by decide) (by decide)
    (fun j hj => by simp [hj]) rfl
